import Mathlib

/-!
Shallow embedding of the mknejp/schedulers core: the per-worker task queue
(`thread_pool_task_queue`), the task payload container (`detail::work_item`),
the thread pool dispatch and worker loops (`basic_thread_pool`), and the
C-callback packager (`package_task_as_c_callback`).

Mutex acquisition, condition-variable waits and allocator activity are made
explicit: a Boolean oracle says whether a try-lock succeeds, the post-wait
state of a blocking `pop` is a hypothesis describing the states the wait loop
can exit in, and allocations/deallocations are recorded as events tagged with
the allocator that performed them. Machine `unsigned` arithmetic is `Nat`
arithmetic taken modulo `2 ^ 32` where the source wraps.
-/

namespace Schedulers

/-- Width of the C++ `unsigned` type on all targeted platforms: arithmetic on
`basic_thread_pool::_next_thread` and on queue indices wraps modulo this. -/
def UMAX : Nat := 2 ^ 32

/-! ## thread_pool_task_queue -/

/-- Condition-variable notification performed by a queue operation
(`notify_one`, `notify_all`, or none). -/
inductive Notify
  | none
  | one
  | all
deriving DecidableEq

/-- State of one `thread_pool_task_queue`: the `std::deque` contents (front
first) and the `_done` flag. -/
structure TPQueue (τ : Type) where
  queue : List τ
  done : Bool
deriving DecidableEq

/-- Model of `thread_pool_task_queue::done()`: lock, set `_done`, then
`notify_all`. -/
def doneSignal {τ : Type} (q : TPQueue τ) : TPQueue τ × Notify :=
  ({ q with done := true }, .all)

/-- Model of `thread_pool_task_queue::try_pop(f)`: try-lock; on lock failure or
empty queue return `false`; otherwise move the front into the caller's slot.
`lockOk` is whether the `std::try_to_lock` acquisition succeeded. Result is
(return value, queue afterwards, item delivered to the caller). -/
def try_pop {τ : Type} (lockOk : Bool) (q : TPQueue τ) : Bool × TPQueue τ × Option τ :=
  match lockOk, q.queue with
  | false, _ => (false, q, Option.none)
  | true, [] => (false, q, Option.none)
  | true, f :: rest => (true, { q with queue := rest }, some f)

/-- Model of `thread_pool_task_queue::try_push(f)`: try-lock; on failure return
`false` leaving queue and payload untouched; on success `emplace_back(move(f))`
then `notify_one`. Result is (return value, queue afterwards, the caller's
payload variable afterwards — `some f` means still owned by the caller, `none`
means moved-from —, notification performed). -/
def try_push {τ : Type} (lockOk : Bool) (q : TPQueue τ) (f : τ) :
    Bool × TPQueue τ × Option τ × Notify :=
  if lockOk then (true, { q with queue := q.queue ++ [f] }, Option.none, .one)
  else (false, q, some f, .none)

/-- Model of `thread_pool_task_queue::push(f)`: lock (blocking),
`emplace_back(move(f))`, `notify_one`. The rvalue argument is always
consumed. -/
def push {τ : Type} (q : TPQueue τ) (f : τ) : TPQueue τ × Notify :=
  ({ q with queue := q.queue ++ [f] }, .one)

/-- The exit condition of the wait loop in `thread_pool_task_queue::pop`:
`while(_queue.empty() && !_done) _ready.wait(lock);` leaves the critical
section only in a state where the queue is non-empty or `_done` is set. -/
def waitExited {τ : Type} (q : TPQueue τ) : Prop :=
  q.queue ≠ [] ∨ q.done = true

/-- Model of `thread_pool_task_queue::pop(f)` after its wait loop has exited
(see `waitExited`): if the queue is still empty return `false`; otherwise move
the front into the caller's slot and return `true`. -/
def pop {τ : Type} (q : TPQueue τ) : Bool × TPQueue τ × Option τ :=
  match q.queue with
  | [] => (false, q, Option.none)
  | f :: rest => (true, { q with queue := rest }, some f)

/-- One mutating operation on a `thread_pool_task_queue`, for stating the
lifetime invariant about the `_done` flag. -/
inductive QOp (τ : Type)
  | push (f : τ)
  | tryPush (lockOk : Bool) (f : τ)
  | pop
  | tryPop (lockOk : Bool)
  | signalDone

/-- The queue state after one operation. -/
def applyOp {τ : Type} (q : TPQueue τ) : QOp τ → TPQueue τ
  | .push f => (push q f).1
  | .tryPush l f => (try_push l q f).2.1
  | .pop => (pop q).2.1
  | .tryPop l => (try_pop l q).2.1
  | .signalDone => (doneSignal q).1

/-- The queue state after a sequence of operations. -/
def applyOps {τ : Type} (q : TPQueue τ) : List (QOp τ) → TPQueue τ
  | [] => q
  | op :: ops => applyOps (applyOp q op) ops

/-! ## detail::work_item -/

/-- Compile-time facts about a callable type `F` that decide the storage
strategy of `work_item`: `nodeSize` is `sizeof(fun_without_alloc<F>)` (the
concrete storage node, vtable pointer included) and `nothrowMove` is
`std::is_nothrow_move_constructible<F>`. -/
structure CallableTraits where
  nodeSize : Nat
  nothrowMove : Bool
deriving DecidableEq

/-- The embedding test in `work_item::emplace`:
`sizeof(embedded) <= sizeof(_buffer) && is_nothrow_move_constructible`, with
`_buffer` of size `3 * sizeof(void*)` and `w` the pointer width in bytes. -/
def can_embed (w : Nat) (t : CallableTraits) : Bool :=
  decide (t.nodeSize ≤ 3 * w) && t.nothrowMove

/-- Storage held by a non-empty `work_item`: either a `fun_without_alloc` node
constructed inside the inline `_buffer`, or a heap `fun_with_alloc` node
holding a copy of the allocator next to the callable. -/
inductive WIStorage (α τ : Type)
  | embedded (f : τ)
  | heap (alloc : α) (f : τ)
deriving DecidableEq

/-- The callable stored in a `WIStorage`. -/
def WIStorage.fnOf {α τ : Type} : WIStorage α τ → τ
  | .embedded f => f
  | .heap _ f => f

/-- State of a `detail::work_item`: `target = none` models `_target == nullptr`
(the empty payload). -/
structure WorkItem (α τ : Type) where
  target : Option (WIStorage α τ)
deriving DecidableEq

/-- Observable resource events of `work_item` operations, tagged with the
allocator that performed them. -/
inductive WIEvent (α τ : Type)
  | alloc (a : α)
  | dealloc (a : α)
  | destroy
  | invoke (f : τ)
deriving DecidableEq

/-- Model of `work_item::emplace` / `emplace_impl` for a callable `f` with
traits `t` and supplied allocator `a`: if `can_embed` holds, placement-new the
node into `_buffer` (no allocation); otherwise `allocate_unique` exactly one
`fun_with_alloc` node holding `(allocator copy, callable)` through `a`.
Result is (constructed item, resource events performed). -/
def work_item_emplace {α τ : Type} (w : Nat) (t : CallableTraits) (a : α) (f : τ) :
    WorkItem α τ × List (WIEvent α τ) :=
  if can_embed w t then ({ target := some (.embedded f) }, [])
  else ({ target := some (.heap a f) }, [.alloc a])

/-- Model of `work_item::~work_item`: nothing if empty; `destroy()` in place if
embedded; `destroy_dealloc()` — destruction followed by deallocation through
the allocator copy embedded in the node — if heap-stored. -/
def work_item_destroy {α τ : Type} : WorkItem α τ → List (WIEvent α τ)
  | { target := Option.none } => []
  | { target := some (.embedded _) } => [.destroy]
  | { target := some (.heap a _) } => [.destroy, .dealloc a]

/-- Model of `work_item::operator()() &&`, which runs `move(*_target)()`: on an
empty item this dereferences a null pointer (undefined, `none`); otherwise the
stored callable is invoked and the item itself is left untouched. -/
def work_item_call {α τ : Type} : WorkItem α τ → Option (WorkItem α τ × List (WIEvent α τ))
  | { target := Option.none } => Option.none
  | { target := some (.embedded f) } => some ({ target := some (.embedded f) }, [.invoke f])
  | { target := some (.heap a f) } => some ({ target := some (.heap a f) }, [.invoke f])

/-- Model of `work_item::operator bool`: `_target != nullptr`. -/
def work_item_bool {α τ : Type} (i : WorkItem α τ) : Bool := i.target.isSome

/-- Model of `work_item::operator=(work_item&&)`: asserts the destination is
empty and the source non-empty (`none` = an assertion fires); an embedded
source node relocates itself into the destination buffer via
`move_and_destroy`, a heap node is handed over by pointer; the source target
is then nulled. Result is (destination, source) afterwards. -/
def work_item_move_assign {α τ : Type} (dst src : WorkItem α τ) :
    Option (WorkItem α τ × WorkItem α τ) :=
  match dst.target, src.target with
  | Option.none, some s => some ({ target := some s }, { target := Option.none })
  | _, _ => Option.none

/-- Model of `work_item::work_item(work_item&&)`: null the fresh `_target`,
then `*this = move(other)`. -/
def work_item_move_ctor {α τ : Type} (src : WorkItem α τ) :
    Option (WorkItem α τ × WorkItem α τ) :=
  work_item_move_assign { target := Option.none } src

/-! ## basic_thread_pool: submission -/

/-- The try-push loop of `basic_thread_pool::schedule(work_t&&)`:
`for(unsigned i = 0; i < _num_threads; ++i)
   if(_queues[(thread + i) % _num_threads].try_push(f)) return;`
where `thread + i` is computed in 32-bit `unsigned` arithmetic. `locked` says
which queues currently fail their mutex try-lock (so `try_push` returns
`false` there); `i` is the loop counter, `fuel` the iterations left, and the
result is the queue index of the first successful `try_push`. -/
def schedule_try (locked : Nat → Bool) (N s : Nat) : Nat → Nat → Option Nat
  | _, 0 => Option.none
  | i, fuel + 1 =>
    if locked (((s + i) % UMAX) % N) then schedule_try locked N s (i + 1) fuel
    else some (((s + i) % UMAX) % N)

/-- How a submission delivered its payload: a successful non-blocking
`try_push` on queue `q`, or the fall-through blocking `push` on queue `q`. -/
inductive PushOutcome
  | tryPushed (q : Nat)
  | blockingPushed (q : Nat)
deriving DecidableEq

/-- Model of `basic_thread_pool::schedule(work_t&&)` given the fetched counter
value `s = _next_thread++`: run the try-push loop over all `N` queues; if
every attempt fails, perform the blocking `push` on `_queues[thread % N]`. -/
def schedule_outcome (locked : Nat → Bool) (N s : Nat) : PushOutcome :=
  match schedule_try locked N s 0 N with
  | some q => .tryPushed q
  | Option.none => .blockingPushed (s % N)

/-- Modelled from the claim's words, for comparison with `schedule_outcome`:
for `k = 0..N-1` in order attempt queue `(s + k) mod N` (exact integer
arithmetic, no machine wrap) and return at the first success; if all fail,
blocking push on queue `s mod N`. -/
def schedule_outcome_claim (locked : Nat → Bool) (N s : Nat) : PushOutcome :=
  match (List.range N).find? (fun k => !locked ((s + k) % N)) with
  | some k => .tryPushed ((s + k) % N)
  | Option.none => .blockingPushed (s % N)

/-- The chosen queue of a `PushOutcome`. -/
def PushOutcome.queueOf : PushOutcome → Nat
  | .tryPushed q => q
  | .blockingPushed q => q

/-- One whole submission step of `basic_thread_pool::schedule(work_t&&)` on
pool state (`qs` = queue contents by index, `next` = the `_next_thread`
counter): fetch-and-increment the wrapping counter, run the push loop, append
the payload once on the chosen queue. Result is (queues afterwards, counter
afterwards, outcome). -/
def schedule_step {τ : Type} (locked : Nat → Bool) (N : Nat) (qs : Nat → List τ)
    (next : Nat) (f : τ) : (Nat → List τ) × Nat × PushOutcome :=
  let s := next
  let outcome := schedule_outcome locked N s
  (fun j => if j = outcome.queueOf then qs j ++ [f] else qs j,
   (next + 1) % UMAX,
   outcome)

/-! ## basic_thread_pool: worker loop -/

/-- The design constant `rounds = 8` of `basic_thread_pool::run`. -/
def rounds : Nat := 8

/-- The steal loop of `basic_thread_pool::run(index)`:
`for(int i = 0; i < _num_threads * rounds; ++i)
   if(_queues[(index + i) % _num_threads].try_pop(f)) break;`
`tryPop j q` is the oracle outcome of the `j`-th `try_pop` call of this
iteration, made on queue `q`: `some f` if it handed out payload `f`, `none`
if it failed (mutex busy or queue empty). -/
def run_steal {τ : Type} (tryPop : Nat → Nat → Option τ) (N index : Nat) :
    Nat → Nat → Option τ
  | _, 0 => Option.none
  | i, fuel + 1 =>
    match tryPop i ((index + i) % N) with
    | some f => some f
    | Option.none => run_steal tryPop N index (i + 1) fuel

/-- Outcome of one iteration of the worker loop body: invoke a payload and
repeat, or break out of the loop. -/
inductive IterOutcome (τ : Type)
  | invoke (f : τ)
  | exitLoop
deriving DecidableEq

/-- Model of one iteration of the `while(true)` body of
`basic_thread_pool::run(index)`: run the steal loop (its bound
`_num_threads * rounds` is 32-bit `unsigned` arithmetic); then
`if(!f && !_queues[index].pop(f)) break; move(f)();` — the blocking pop on the
worker's own queue is consulted only when the steal loop produced nothing, and
its oracle outcome `popResult = none` models it returning `false`. -/
def run_iteration {τ : Type} (tryPop : Nat → Nat → Option τ) (popResult : Option τ)
    (N index : Nat) : IterOutcome τ :=
  match run_steal tryPop N index 0 ((N * rounds) % UMAX) with
  | some f => .invoke f
  | Option.none =>
    match popResult with
    | some f => .invoke f
    | Option.none => .exitLoop

/-! ## thread_pool construction -/

/-- Thread and queue count of `basic_thread_pool`: the constructor stores
`_num_threads(std::max(1u, num_threads))` and creates that many queues
(`_queues{_num_threads}`) and worker threads (`start` loops `_num_threads`
times). -/
def basic_thread_pool_num_threads (numThreads : Nat) : Nat := max 1 numThreads

/-- Thread count produced by `thread_pool::thread_pool(int num_threads)`. The
source reads `thread_pool(int num_threads) : basic_thread_pool(make_thread) {}`:
the `num_threads` argument is not forwarded, so the base constructor's default
argument `std::thread::hardware_concurrency()` is used instead. -/
def thread_pool_num_threads (hardwareConcurrency : Nat) (numThreads : Int) : Nat :=
  basic_thread_pool_num_threads hardwareConcurrency

/-! ## package_task_as_c_callback -/

/-- The dispatch test in `package_task_as_c_callback`:
`sizeof(function_t) <= sizeof(void*) && std::is_trivially_copyable<function_t>`,
with `fSize` the callable's size and `w` the pointer width in bytes. -/
def can_elide_alloc (fSize w : Nat) (triviallyCopyable : Bool) : Bool :=
  decide (fSize ≤ w) && triviallyCopyable

/-- Which `package_task_as_c_callback_impl` specialization overload resolution
selects: the `std::reference_wrapper` overload when the input is one, else the
allocation-eliding overload when `can_elide_alloc` holds, else the allocating
one. -/
inductive PackImpl
  | refRouted
  | elided
  | allocated
deriving DecidableEq

/-- The specialization chosen for an input with the given properties. -/
def package_dispatch (isRefWrapper canElide : Bool) : PackImpl :=
  if isRefWrapper then .refRouted
  else if canElide then .elided
  else .allocated

/-- Packaging side of the allocation-eliding specialization, at the level of
object bytes: `memcpy(converter, &f, sizeof(f))` writes the callable's bytes
`fBytes` over the start of the word-sized converter whose remaining bytes
`rest` stay indeterminate; the resulting `w`-byte word is the `void*` data
value. The second component counts allocator allocations performed (the
allocator parameter of this specialization is discarded). -/
def elided_pack (w : Nat) (fBytes rest : List Nat) : List Nat × Nat :=
  ((fBytes ++ rest).take w, 0)

/-- Callback side of the allocation-eliding specialization:
`memcpy(converter, &data, sizeof(data))` copies the word into a local aligned
as the callable requires, and `reinterpret_cast<function_t*>(converter)` reads
its first `sizeof(function_t)` bytes back as the callable. -/
def elided_unpack (fSize : Nat) (word : List Nat) : List Nat :=
  word.take fSize

/-- The heap node of the allocating specialization:
`std::tuple<Alloc, function_t>` holding the allocator copy and the callable. -/
structure CNode (α τ : Type) where
  alloc : α
  fn : τ
deriving DecidableEq

/-- Observable events of the allocated c_callback strategy: the callable
returned normally, the callable exited by exception, or the node was destroyed
and deallocated through allocator `a`. -/
inductive CEvent (α τ : Type)
  | invoke (f : τ)
  | raised (f : τ)
  | freed (a : α)
deriving DecidableEq

/-- State of a `detail::c_callback` handle in the allocated strategy: its
`_data` member is the `allocate_unique` pointer, which still owns the node or
has been released. -/
structure CCallbackHandle (α τ : Type) where
  owned : Option (CNode α τ)
deriving DecidableEq

/-- A freshly packaged handle owning its node. -/
def mkHandle {α τ : Type} (n : CNode α τ) : CCallbackHandle α τ :=
  { owned := some n }

/-- Model of `c_callback::release()` on its data owner: give up ownership and
hand the raw node out. -/
def c_callback_release {α τ : Type} (c : CCallbackHandle α τ) :
    CCallbackHandle α τ × Option (CNode α τ) :=
  ({ owned := Option.none }, c.owned)

/-- Model of the handle's destructor: the `allocate_unique` deleter destroys
and deallocates the node through its allocator if still owned, else does
nothing. -/
def c_callback_dtor {α τ : Type} (c : CCallbackHandle α τ) : List (CEvent α τ) :=
  match c.owned with
  | some n => [.freed n.alloc]
  | Option.none => []

/-- Model of the allocated-strategy `f_ptr` body: construct the `deleter`
scope guard over the node, invoke `move(get<1>(*f.ptr))()` (which may raise),
and let the guard destroy and deallocate the node through the allocator copy
embedded in the node (`get<0>`) at scope exit — on the normal and on the
exceptional path alike. -/
def c_fn_ptr {α τ : Type} (raises : Bool) (n : CNode α τ) : List (CEvent α τ) :=
  if raises then [.raised n.fn, .freed n.alloc]
  else [.invoke n.fn, .freed n.alloc]

/-- Model of `c_callback::operator()()`, whose body is `_f(_data.release())`:
release, then run the callback on the released node. Invoking with no owned
node passes a null pointer into the callback body (undefined, `none`). -/
def c_callback_call {α τ : Type} (raises : Bool) (c : CCallbackHandle α τ) :
    Option (CCallbackHandle α τ × List (CEvent α τ)) :=
  match c_callback_release c with
  | (c2, some node) => some (c2, c_fn_ptr raises node)
  | (_, Option.none) => Option.none

/-- Events of the lifecycle in which the handle is constructed and then simply
destroyed (neither `release()` nor invocation happened). -/
def life_dtor_only {α τ : Type} (n : CNode α τ) : List (CEvent α τ) :=
  c_callback_dtor (mkHandle n)

/-- Events of the lifecycle in which the handle is released, the C side then
invokes the callback (normally or exceptionally), and the handle is finally
destroyed. -/
def life_release_invoke {α τ : Type} (raises : Bool) (n : CNode α τ) : List (CEvent α τ) :=
  match c_callback_release (mkHandle n) with
  | (c2, some node) => c_fn_ptr raises node ++ c_callback_dtor c2
  | (c2, Option.none) => c_callback_dtor c2

/-- Events of the lifecycle in which the handle is called directly
(`operator()()`) and then destroyed. -/
def life_direct_call {α τ : Type} (raises : Bool) (n : CNode α τ) : List (CEvent α τ) :=
  match c_callback_call raises (mkHandle n) with
  | some (c2, evs) => evs ++ c_callback_dtor c2
  | Option.none => []

/-- Number of node-release events in an event list. -/
def freedCount {α τ : Type} (evs : List (CEvent α τ)) : Nat :=
  evs.countP (fun e => match e with | .freed _ => true | _ => false)

/-! ## Lemmas about the task queue -/

lemma applyOp_done_sticky {τ : Type} (q : TPQueue τ) (op : QOp τ) (h : q.done = true) :
    (applyOp q op).done = true := by
  cases op with
  | push f => simpa [applyOp, push] using h
  | tryPush l f => cases l <;> simp [applyOp, try_push, h]
  | pop => cases hq : q.queue <;> simp [applyOp, pop, hq, h]
  | tryPop l => cases l <;> cases hq : q.queue <;> simp [applyOp, try_pop, hq, h]
  | signalDone => simp [applyOp, doneSignal]

lemma applyOps_done_sticky {τ : Type} (ops : List (QOp τ)) :
    ∀ q : TPQueue τ, q.done = true → (applyOps q ops).done = true := by
  induction ops with
  | nil => intro q h; simpa [applyOps] using h
  | cons op ops ih => intro q h; exact ih _ (applyOp_done_sticky q op h)

/-! ## Theorems for the claims about the task queue -/

/-- C3: after its wait loop has exited (which can only be in a non-empty or a
done state), `pop` returns `false` exactly when the queue is still empty; a
`false` return therefore implies the `done` flag was set, and the queue and
out-slot are untouched; on a non-empty queue it removes the front element,
delivers it, and returns `true`. Moreover the `done` flag is sticky: once set,
no sequence of queue operations ever clears it. -/
theorem C3_pop_contract (τ : Type) (q : TPQueue τ) (hw : waitExited q) :
    ((pop q).1 = false ↔ q.queue = []) ∧
    ((pop q).1 = false → q.done = true ∧ pop q = (false, q, Option.none)) ∧
    (∀ f rest, q.queue = f :: rest → pop q = (true, { q with queue := rest }, some f)) ∧
    (∀ (q0 : TPQueue τ) (ops : List (QOp τ)), q0.done = true → (applyOps q0 ops).done = true) := by
  refine ⟨?_, ?_, ?_, fun q0 ops h => applyOps_done_sticky ops q0 h⟩
  · cases hq : q.queue <;> simp [pop, hq]
  · intro hfalse
    cases hq : q.queue with
    | nil =>
      rcases hw with hne | hdone
      · exact absurd hq hne
      · exact ⟨hdone, by simp [pop, hq]⟩
    | cons f rest => simp [pop, hq] at hfalse
  · intro f rest hq
    simp [pop, hq]

/-- Witness for C3 at the concrete state (empty queue, `done` set). -/
theorem C3_pop_contract_witness :
    (pop (⟨[], true⟩ : TPQueue Nat)).1 = false :=
  (C3_pop_contract Nat ⟨[], true⟩ (Or.inr rfl)).1.mpr rfl

/-- C4: when the mutex try-lock fails, `try_push` returns `false`, leaves the
queue untouched, leaves the payload owned by the caller, and notifies nobody;
when it succeeds it appends the payload at the back, consumes it, notifies one
waiter and returns `true`; `push` always consumes its rvalue argument,
appends it at the back and notifies one waiter. -/
theorem C4_try_push_contract (τ : Type) (q : TPQueue τ) (f : τ) :
    (try_push false q f = (false, q, some f, Notify.none)) ∧
    (try_push true q f
      = (true, { q with queue := q.queue ++ [f] }, Option.none, Notify.one)) ∧
    (push q f = ({ q with queue := q.queue ++ [f] }, Notify.one)) :=
  ⟨rfl, rfl, rfl⟩

/-! ## Theorems for the claims about work_item -/

/-- C6: `work_item` stores the callable inline, with zero allocations, exactly
when its concrete storage node fits the three-pointer buffer and its move
cannot fail; in every other case construction performs exactly one allocation
of a node holding (allocator copy, callable) through the supplied allocator,
and destruction of that heap-stored item performs exactly one matching
deallocation through the allocator copy embedded in the node. -/
theorem C6_storage_strategy (α τ : Type) (w : Nat) (t : CallableTraits) (a : α) (f : τ) :
    (can_embed w t = true ↔ t.nodeSize ≤ 3 * w ∧ t.nothrowMove = true) ∧
    (can_embed w t = true →
      work_item_emplace w t a f = ({ target := some (.embedded f) }, [])) ∧
    (can_embed w t = false →
      work_item_emplace w t a f = ({ target := some (.heap a f) }, [WIEvent.alloc a]) ∧
      work_item_destroy (work_item_emplace w t a f).1
        = [WIEvent.destroy, WIEvent.dealloc a]) := by
  refine ⟨?_, ?_, ?_⟩
  · simp [can_embed, Bool.and_eq_true, decide_eq_true_eq]
  · intro h; simp [work_item_emplace, h]
  · intro h; simp [work_item_emplace, h, work_item_destroy]

/-- Witness for C6 at a concrete oversized callable (node of 100 bytes on a
64-bit word): heap storage, one allocation, one matching deallocation. -/
theorem C6_storage_strategy_witness :
    work_item_emplace 8 ⟨100, true⟩ (0 : Nat) (7 : Nat)
      = ({ target := some (.heap 0 7) }, [WIEvent.alloc 0]) :=
  ((C6_storage_strategy Nat Nat 8 ⟨100, true⟩ 0 7).2.2 (by decide)).1

/-- C9: invoking a non-empty `work_item` through its rvalue call operator
leaves the item unchanged (still convertible to `true`, same target) and
produces only the invocation of the stored callable — no destruction, no
deallocation; the subsequent destructor still performs the single destruction
and, for heap storage, the single deallocation. -/
theorem C9_call_preserves (α τ : Type) (i : WorkItem α τ) (s : WIStorage α τ)
    (h : i.target = some s) :
    work_item_bool i = true ∧
    work_item_call i = some (i, [WIEvent.invoke s.fnOf]) ∧
    (∀ f, s = .embedded f → work_item_destroy i = [WIEvent.destroy]) ∧
    (∀ a f, s = .heap a f → work_item_destroy i = [WIEvent.destroy, WIEvent.dealloc a]) := by
  obtain ⟨tgt⟩ := i
  cases h
  cases s with
  | embedded f =>
    refine ⟨rfl, rfl, ?_, ?_⟩
    · intro f2 hf
      rfl
    · intro a2 f2 hf
      simp at hf
  | heap a f =>
    refine ⟨rfl, rfl, ?_, ?_⟩
    · intro f2 hf
      simp at hf
    · intro a2 f2 hf
      injection hf with h1 h2
      subst h1
      subst h2
      rfl

/-- Witness for C9 at a concrete inline-stored item. -/
theorem C9_call_preserves_witness :
    work_item_call ({ target := some (.embedded 3) } : WorkItem Nat Nat)
      = some ({ target := some (.embedded 3) }, [WIEvent.invoke 3]) :=
  (C9_call_preserves Nat Nat { target := some (.embedded 3) } (.embedded 3) rfl).2.1

/-- C10: the move constructor is move-assignment into a freshly emptied item;
with a non-empty source and an empty destination the assignment's assertions
cannot fire, the destination ends up holding the source's storage (the
embedded node relocated into the destination buffer, a heap node handed over
by pointer) and the source ends up empty; an empty source — or a non-empty
destination — makes an assertion fire. -/
theorem C10_move_semantics (α τ : Type) (src dst : WorkItem α τ) :
    (work_item_move_ctor src = work_item_move_assign { target := Option.none } src) ∧
    (∀ s, src.target = some s → dst.target = Option.none →
      work_item_move_assign dst src
        = some ({ target := some s }, { target := Option.none })) ∧
    (src.target = Option.none → work_item_move_assign dst src = Option.none) ∧
    (∀ s2, dst.target = some s2 → work_item_move_assign dst src = Option.none) := by
  obtain ⟨d⟩ := dst
  obtain ⟨s0⟩ := src
  refine ⟨rfl, ?_, ?_, ?_⟩
  · rintro s hs hd
    cases hs; cases hd; rfl
  · rintro rfl
    cases d <;> rfl
  · rintro s2 hd
    cases hd
    cases s0 <;> rfl

/-- Witness for C10: moving a concrete embedded item into an empty one. -/
theorem C10_move_semantics_witness :
    work_item_move_assign ({ target := Option.none } : WorkItem Nat Nat)
        { target := some (.embedded 5) }
      = some ({ target := some (.embedded 5) }, { target := Option.none }) :=
  (C10_move_semantics Nat Nat { target := some (.embedded 5) }
    { target := Option.none }).2.1 (.embedded 5) rfl rfl

/-! ## Theorems for the claims about the packager -/

/-- C7: for a trivially copyable callable no larger than a pointer (and not a
`std::reference_wrapper`, which has its own specialization), the packager
selects the allocation-eliding specialization, performs zero allocations,
stores the callable's bytes in the pointer-sized data word itself, and the
callback reconstructs from that word — in a correctly aligned local — a
callable bit-identical to the original. `rest` are the indeterminate trailing
converter bytes, so `fBytes.length + rest.length` is the word width. -/
theorem C7_elided_roundtrip (w : Nat) (fBytes rest : List Nat) (tc : Bool)
    (h : can_elide_alloc fBytes.length w tc = true)
    (hrest : fBytes.length + rest.length = w) :
    package_dispatch false (can_elide_alloc fBytes.length w tc) = .elided ∧
    (elided_pack w fBytes rest).2 = 0 ∧
    (elided_pack w fBytes rest).1.length = w ∧
    elided_unpack fBytes.length (elided_pack w fBytes rest).1 = fBytes := by
  have hle : fBytes.length ≤ w := by
    have := (Bool.and_eq_true _ _).mp h
    exact of_decide_eq_true this.1
  refine ⟨by simp [package_dispatch, h], rfl, ?_, ?_⟩
  · have : (fBytes ++ rest).length = w := by
      simpa [List.length_append] using hrest
    simp [elided_pack, List.length_take, this]
  · show ((fBytes ++ rest).take w).take fBytes.length = fBytes
    rw [List.take_take, Nat.min_eq_left hle]
    calc (fBytes ++ rest).take fBytes.length = fBytes := List.take_left fBytes rest

/-- Witness for C7 at a concrete two-byte callable on an eight-byte word. -/
theorem C7_elided_roundtrip_witness :
    elided_unpack 2 (elided_pack 8 [171, 205] [1, 2, 3, 4, 5, 6]).1 = [171, 205] :=
  (C7_elided_roundtrip 8 [171, 205] [1, 2, 3, 4, 5, 6] true (by decide)
    (by decide)).2.2.2

/-- C8: for a handle of the heap-allocated c_callback strategy, exactly one of
the destructor and the callback invocation releases the node — one release in
each of the three legal lifecycles, never two and never zero; the callback
path destroys and deallocates the node through the allocator copy embedded in
it, on normal and on exceptional return alike; and calling the handle
directly is the same as releasing it and then invoking the callback. -/
theorem C8_release_exactly_once (α τ : Type) (n : CNode α τ) (raises : Bool) :
    freedCount (life_dtor_only n) = 1 ∧
    freedCount (life_release_invoke raises n) = 1 ∧
    freedCount (life_direct_call raises n) = 1 ∧
    c_fn_ptr true n = [.raised n.fn, .freed n.alloc] ∧
    c_fn_ptr false n = [.invoke n.fn, .freed n.alloc] ∧
    life_direct_call raises n = life_release_invoke raises n ∧
    (∀ a, CEvent.freed a ∈ life_release_invoke raises n → a = n.alloc) := by
  cases raises <;>
    simp [life_dtor_only, life_release_invoke, life_direct_call, c_callback_call,
      c_callback_release, c_callback_dtor, c_fn_ptr, mkHandle, freedCount]

/-- Witness for C8: the throwing direct-call lifecycle on a concrete node
releases exactly once. -/
theorem C8_release_exactly_once_witness :
    freedCount (life_direct_call true (CNode.mk (0 : Nat) (1 : Nat))) = 1 :=
  (C8_release_exactly_once Nat Nat ⟨0, 1⟩ true).2.2.1

/-! ## Theorem for the thread count claim -/

/-- C5: evaluation of the constructors at a failing input. `basic_thread_pool`
does clamp its argument to at least 1, but `thread_pool::thread_pool(int)`
does not forward its `num_threads` argument at all: on a host with
`hardware_concurrency() = 8`, `thread_pool(3)` starts 8 worker threads and
queues where its own documentation (and the claim) promise 3. -/
theorem C5_thread_pool_ignores_count :
    thread_pool_num_threads 8 3 = 8 ∧
    thread_pool_num_threads 8 3 ≠ 3 ∧
    basic_thread_pool_num_threads 3 = 3 ∧
    basic_thread_pool_num_threads 0 = 1 := by
  refine ⟨rfl, by decide, rfl, rfl⟩

/-! ## Lemmas about the submission try-push loop -/

lemma schedule_try_eq_none_iff (locked : Nat → Bool) (N s : Nat) :
    ∀ (fuel i : Nat),
      schedule_try locked N s i fuel = Option.none ↔
        ∀ k, k < fuel → locked (((s + (i + k)) % UMAX) % N) = true := by
  intro fuel
  induction fuel with
  | zero => intro i; simp [schedule_try]
  | succ fuel ih =>
    intro i
    cases h0 : locked (((s + i) % UMAX) % N) with
    | false =>
      constructor
      · intro h
        simp only [schedule_try, h0, Bool.false_eq_true, if_false] at h
        cases h
      · intro h
        have := h 0 (Nat.succ_pos _)
        rw [Nat.add_zero, h0] at this
        cases this
    | true =>
      have hstep : schedule_try locked N s i (fuel + 1)
          = schedule_try locked N s (i + 1) fuel := by
        simp only [schedule_try, h0, if_true]
      rw [hstep, ih (i + 1)]
      constructor
      · intro h k hk
        cases k with
        | zero => rwa [Nat.add_zero]
        | succ k =>
          have hr := h k (Nat.lt_of_succ_lt_succ hk)
          have he : i + 1 + k = i + (k + 1) := by omega
          rwa [he] at hr
      · intro h k hk
        have hr := h (k + 1) (Nat.succ_lt_succ hk)
        have he : i + (k + 1) = i + 1 + k := by omega
        rwa [he] at hr

lemma schedule_try_first (locked : Nat → Bool) (N s : Nat) :
    ∀ (fuel i k : Nat), k < fuel →
      locked (((s + (i + k)) % UMAX) % N) = false →
      (∀ j, j < k → locked (((s + (i + j)) % UMAX) % N) = true) →
      schedule_try locked N s i fuel = some (((s + (i + k)) % UMAX) % N) := by
  intro fuel
  induction fuel with
  | zero => intro i k hk _ _; exact absurd hk (Nat.not_lt_zero k)
  | succ fuel ih =>
    intro i k hk hkf hmin
    cases k with
    | zero =>
      rw [Nat.add_zero] at hkf
      simp only [Nat.add_zero, schedule_try, hkf, Bool.false_eq_true, if_false]
    | succ k =>
      have h0 : locked (((s + i) % UMAX) % N) = true := by
        have := hmin 0 (Nat.succ_pos k)
        rwa [Nat.add_zero] at this
      have he : i + (k + 1) = i + 1 + k := by omega
      rw [he] at hkf ⊢
      simp only [schedule_try, h0, if_true]
      exact ih (i + 1) k (Nat.lt_of_succ_lt_succ hk) hkf (fun j hj => by
        have hr := hmin (j + 1) (Nat.succ_lt_succ hj)
        have he2 : i + (j + 1) = i + 1 + j := by omega
        rwa [he2] at hr)

lemma schedule_outcome_first (locked : Nat → Bool) (N s k : Nat) (hk : k < N)
    (hkf : locked (((s + k) % UMAX) % N) = false)
    (hmin : ∀ j, j < k → locked (((s + j) % UMAX) % N) = true) :
    schedule_outcome locked N s = .tryPushed (((s + k) % UMAX) % N) := by
  have hs := schedule_try_first locked N s N 0 k hk
    (by simpa using hkf) (fun j hj => by simpa using hmin j hj)
  rw [Nat.zero_add] at hs
  simp [schedule_outcome, hs]

lemma schedule_outcome_blocked (locked : Nat → Bool) (N s : Nat)
    (h : ∀ k, k < N → locked (((s + k) % UMAX) % N) = true) :
    schedule_outcome locked N s = .blockingPushed (s % N) := by
  have hn : schedule_try locked N s 0 N = Option.none :=
    (schedule_try_eq_none_iff locked N s N 0).mpr (fun k hk => by simpa using h k hk)
  simp [schedule_outcome, hn]

/-! ## Theorem for the submission claim -/

/-- C1 (amended): a submission fetch-and-increments the wrapping `unsigned`
counter, obtaining `s`; it then attempts `try_push` on queue
`((s + k) mod 2^32) mod N` for `k = 0..N-1` in order — the index arithmetic
wraps at the machine word, which is the amendment — and returns at the first
success; only if all `N` attempts fail does it perform one blocking `push` on
queue `s mod N`; in every case the payload is appended exactly once, on the
chosen queue, and all other queues are untouched. -/
theorem C1_amended_submission (τ : Type) (locked : Nat → Bool) (N s next : Nat)
    (qs : Nat → List τ) (f : τ) (hN : 0 < N) :
    ((schedule_step locked N qs next f).2.1 = (next + 1) % UMAX) ∧
    ((schedule_step locked N qs next f).2.2 = schedule_outcome locked N next) ∧
    (∀ k, k < N → locked (((s + k) % UMAX) % N) = false →
      (∀ j, j < k → locked (((s + j) % UMAX) % N) = true) →
      schedule_outcome locked N s = .tryPushed (((s + k) % UMAX) % N)) ∧
    ((∀ k, k < N → locked (((s + k) % UMAX) % N) = true) →
      schedule_outcome locked N s = .blockingPushed (s % N)) ∧
    ((schedule_step locked N qs next f).1 (schedule_step locked N qs next f).2.2.queueOf
      = qs ((schedule_step locked N qs next f).2.2.queueOf) ++ [f]) ∧
    (∀ j, j ≠ (schedule_step locked N qs next f).2.2.queueOf →
      (schedule_step locked N qs next f).1 j = qs j) := by
  refine ⟨rfl, rfl, ?_, ?_, ?_, ?_⟩
  · exact fun k hk hkf hmin => schedule_outcome_first locked N s k hk hkf hmin
  · exact fun h => schedule_outcome_blocked locked N s h
  · simp [schedule_step]
  · intro j hj
    have hj2 : j ≠ (schedule_outcome locked N next).queueOf := by
      simpa [schedule_step] using hj
    simp [schedule_step, hj2]

/-- Witness for C1 (amended): with every queue locked, a submission with
counter value 10 to a 3-queue pool falls back to the blocking push on queue
`10 mod 3 = 1`. -/
theorem C1_amended_submission_witness :
    schedule_outcome (fun _ => true) 3 10 = PushOutcome.blockingPushed 1 := by
  have h := (C1_amended_submission Nat (fun _ => true) 3 10 10 (fun _ => []) 0
    (by decide)).2.2.2.1
  exact h (fun k _ => rfl)

/-- C1 counterexample: at the fetched counter value `s = 2^32 - 1` (reachable,
since `_next_thread` is a wrapping `unsigned`) with `N = 3` and only queue 2
unlocked, the claim's walk `(s + k) mod N` reaches queue 2 and predicts a
successful non-blocking `try_push` there, but the source's 32-bit index
arithmetic walks queues 0, 0, 1, never tries queue 2, and performs the
blocking fallback push on queue 0. -/
theorem C1_counterexample :
    schedule_outcome_claim (fun q => !(q == 2)) 3 (2 ^ 32 - 1)
      = PushOutcome.tryPushed 2 ∧
    schedule_outcome (fun q => !(q == 2)) 3 (2 ^ 32 - 1)
      = PushOutcome.blockingPushed 0 := by
  constructor <;> decide

/-! ## Lemmas about the worker steal loop -/

lemma run_steal_eq_none_iff {τ : Type} (tryPop : Nat → Nat → Option τ) (N index : Nat) :
    ∀ (fuel i : Nat),
      run_steal tryPop N index i fuel = Option.none ↔
        ∀ k, k < fuel → tryPop (i + k) ((index + (i + k)) % N) = Option.none := by
  intro fuel
  induction fuel with
  | zero => intro i; simp [run_steal]
  | succ fuel ih =>
    intro i
    cases h0 : tryPop i ((index + i) % N) with
    | some f =>
      constructor
      · intro h
        simp only [run_steal, h0] at h
        exact Option.noConfusion h
      · intro h
        have hr := h 0 (Nat.succ_pos _)
        rw [Nat.add_zero, h0] at hr
        cases hr
    | none =>
      have hstep : run_steal tryPop N index i (fuel + 1)
          = run_steal tryPop N index (i + 1) fuel := by
        simp only [run_steal, h0]
      rw [hstep, ih (i + 1)]
      constructor
      · intro h k hk
        cases k with
        | zero => rwa [Nat.add_zero]
        | succ k =>
          have hr := h k (Nat.lt_of_succ_lt_succ hk)
          have he : i + 1 + k = i + (k + 1) := by omega
          rwa [he] at hr
      · intro h k hk
        have hr := h (k + 1) (Nat.succ_lt_succ hk)
        have he : i + (k + 1) = i + 1 + k := by omega
        rwa [he] at hr

lemma run_steal_first {τ : Type} (tryPop : Nat → Nat → Option τ) (N index : Nat) :
    ∀ (fuel i k : Nat) (f : τ), k < fuel →
      tryPop (i + k) ((index + (i + k)) % N) = some f →
      (∀ j, j < k → tryPop (i + j) ((index + (i + j)) % N) = Option.none) →
      run_steal tryPop N index i fuel = some f := by
  intro fuel
  induction fuel with
  | zero => intro i k f hk _ _; exact absurd hk (Nat.not_lt_zero k)
  | succ fuel ih =>
    intro i k f hk hks hmin
    cases k with
    | zero =>
      rw [Nat.add_zero] at hks
      simp only [run_steal, hks]
    | succ k =>
      have h0 : tryPop i ((index + i) % N) = Option.none := by
        have := hmin 0 (Nat.succ_pos k)
        rwa [Nat.add_zero] at this
      have he : i + (k + 1) = i + 1 + k := by omega
      rw [he] at hks
      simp only [run_steal, h0]
      exact ih (i + 1) k f (Nat.lt_of_succ_lt_succ hk) hks (fun j hj => by
        have hr := hmin (j + 1) (Nat.succ_lt_succ hj)
        have he2 : i + (j + 1) = i + 1 + j := by omega
        rwa [he2] at hr)

/-! ## Theorem for the worker loop claim -/

/-- C2: an iteration of worker `index` of an `N`-queue pool first makes up to
`N * 8` non-blocking `try_pop` attempts walking queues `(index + j) mod N`
for `j = 0, 1, 2, ...` — so starting at its own queue — and stops the try
loop at the first success, in which case the payload is invoked and the
blocking pop is never consulted; only when every attempt failed does it
perform the blocking `pop` on its own queue `index`, invoking the payload it
delivers; and the worker loop exits exactly when that blocking pop returns
false. -/
theorem C2_worker_loop (τ : Type) (tryPop : Nat → Nat → Option τ) (popResult : Option τ)
    (N index : Nat) (hN : 0 < N) (hsz : N * rounds < UMAX) :
    (∀ j f, j < N * rounds → tryPop j ((index + j) % N) = some f →
      (∀ j2, j2 < j → tryPop j2 ((index + j2) % N) = Option.none) →
      ∀ pr : Option τ, run_iteration tryPop pr N index = .invoke f) ∧
    ((∀ j, j < N * rounds → tryPop j ((index + j) % N) = Option.none) →
      (∀ f, popResult = some f → run_iteration tryPop popResult N index = .invoke f) ∧
      (popResult = Option.none → run_iteration tryPop popResult N index = .exitLoop)) ∧
    (run_iteration tryPop popResult N index = .exitLoop ↔
      ((∀ j, j < N * rounds → tryPop j ((index + j) % N) = Option.none) ∧
        popResult = Option.none)) := by
  have hbound : (N * rounds) % UMAX = N * rounds := Nat.mod_eq_of_lt hsz
  refine ⟨?_, ?_, ?_, ?_⟩
  · intro j f hj hjs hmin pr
    have hs : run_steal tryPop N index 0 ((N * rounds) % UMAX) = some f := by
      rw [hbound]
      exact run_steal_first tryPop N index (N * rounds) 0 j f hj
        (by simpa using hjs) (fun j2 hj2 => by simpa using hmin j2 hj2)
    simp [run_iteration, hs]
  · intro hall
    have hs : run_steal tryPop N index 0 ((N * rounds) % UMAX) = Option.none := by
      rw [hbound]
      exact (run_steal_eq_none_iff tryPop N index (N * rounds) 0).mpr
        (fun k hk => by simpa using hall k hk)
    exact ⟨fun f hf => by simp [run_iteration, hs, hf],
           fun hf => by simp [run_iteration, hs, hf]⟩
  · intro hexit
    cases hsteal : run_steal tryPop N index 0 ((N * rounds) % UMAX) with
    | some f => simp [run_iteration, hsteal] at hexit
    | none =>
      cases hpr : popResult with
      | some f => simp [run_iteration, hsteal, hpr] at hexit
      | none =>
        refine ⟨?_, rfl⟩
        intro j hj
        have hr := (run_steal_eq_none_iff tryPop N index (N * rounds) 0).mp
          (by rwa [hbound] at hsteal) j hj
        simpa using hr
  · rintro ⟨hall, hpr⟩
    have hs : run_steal tryPop N index 0 ((N * rounds) % UMAX) = Option.none := by
      rw [hbound]
      exact (run_steal_eq_none_iff tryPop N index (N * rounds) 0).mpr
        (fun k hk => by simpa using hall k hk)
    simp [run_iteration, hs, hpr]

/-- Witness for C2: with every `try_pop` failing and the blocking pop
delivering payload 5, the iteration invokes 5. -/
theorem C2_worker_loop_witness :
    run_iteration (fun _ _ => (Option.none : Option Nat)) (some 5) 2 0
      = IterOutcome.invoke 5 := by
  have h := C2_worker_loop Nat (fun _ _ => Option.none) (some 5) 2 0
    (by decide) (by decide)
  exact (h.2.1 (fun j _ => rfl)).1 5 rfl

end Schedulers
